import Mathlib

/-!
Verification of the wpm backlog tracker's ordering and reconciliation engine.

The definitions below are a shallow embedding of the TypeScript source:
`src/types/issue.ts` (the `Backlog` component's drag/add/import handlers) and
`src/lib/storage.ts` (the `storageUtils` persistence helpers).  Numeric
priorities are JS numbers in the source; they are modelled as `Rat`, which is
exact for every value the engine produces (integers and halves).
-/

set_option autoImplicit false

namespace Wpm

/-- The four workflow categories (`IssueCategory` in `src/types/issue.ts`). -/
inductive IssueCategory
  | planned
  | inProgress
  | inReview
  | done
deriving DecidableEq

/-- An issue (`Issue` in `src/types/issue.ts`).  The `createdAt`/`updatedAt`
timestamp strings are irrelevant to ordering and are kept as plain strings. -/
structure Issue where
  id : String
  issueNumber : String
  title : String
  description : String
  category : IssueCategory
  priority : Rat
  tags : List String
  commentCount : Nat
  dueDate : Option String := none
  createdAt : String := ""
  updatedAt : String := ""
deriving DecidableEq

/-- What a drag ended over: another issue card, or an empty-category drop zone.
The `EmptyCategory` component registers droppable zones with id
`empty-<category>` for each rendered category, so an empty-zone target always
carries a valid category. -/
inductive DropTarget
  | item (id : String)
  | emptyZone (category : IssueCategory)
deriving DecidableEq

/-- A drag-end event (`DragEndEvent` as consumed by `handleDragEnd`):
the dragged issue's id and the drop target (`none` when released outside any
droppable, the `if (!over) return` case). -/
structure DragEndEvent where
  activeId : String
  over : Option DropTarget

/-- JS `array.splice(i, 0, x)` as used by `handleDragEnd` and dnd-kit's
`arrayMove`: inserts `x` at index `i`, clamping `i` to the array length. -/
def spliceInsert {α : Type} (l : List α) (i : Nat) (x : α) : List α :=
  match l, i with
  | l, 0 => x :: l
  | [], _ + 1 => [x]
  | y :: ys, n + 1 => y :: spliceInsert ys n x

/-- dnd-kit's `arrayMove(array, from, to)`: remove the element at `from`,
re-insert it at `to`.  The source always calls it with a valid `from`
(the index returned by a successful `findIndex`); an out-of-range `from`
is totalised as a no-op. -/
def arrayMove {α : Type} (l : List α) (i j : Nat) : List α :=
  match l.get? i with
  | none => l
  | some x => spliceInsert (l.eraseIdx i) j x

/-- `storageUtils.reorderIssues` (`src/lib/storage.ts` lines 284-299): builds
the list of per-item priority writes `{ id, priority: index }` pushed to the
store.  It returns the persisted `(id, priority)` pairs; the in-memory
`Issue` objects it is given are not touched. -/
def reorderIssues (reorderedIssues : List Issue) : List (String × Rat) :=
  reorderedIssues.enum.map fun p => (p.2.id, (p.1 : Rat))

/-- `handleDragEnd` (`src/types/issue.ts` lines 165-228): the reconciliation
of a drag-end event against the current in-memory issue list.  Returns the
new in-memory list (the source additionally calls `reorderIssues` on it in
every mutating branch). -/
def handleDragEnd (items : List Issue) (ev : DragEndEvent) : List Issue :=
  match ev.over with
  | none => items
  | some (DropTarget.emptyZone targetCategory) =>
    items.map fun issue =>
      if issue.id = ev.activeId then { issue with category := targetCategory } else issue
  | some (DropTarget.item overId) =>
    if ev.activeId = overId then items
    else
      match items.find? (fun i => i.id == ev.activeId),
            items.find? (fun i => i.id == overId) with
      | some draggedIssue, some overIssue =>
        if draggedIssue.category = overIssue.category then
          arrayMove items (items.findIdx (fun i => i.id == ev.activeId))
            (items.findIdx (fun i => i.id == overId))
        else
          let oldIndex := items.findIdx (fun i => i.id == ev.activeId)
          let overIndex := items.findIdx (fun i => i.id == overId)
          let withoutDragged := items.filter (fun i => !(i.id == ev.activeId))
          let updatedDraggedItem := { draggedIssue with category := overIssue.category }
          let adjustedIndex := if oldIndex < overIndex then overIndex - 1 else overIndex
          spliceInsert withoutDragged adjustedIndex updatedDraggedItem
      | _, _ => items

/-- One insertion step of the stable ascending sort by `priority`.  The new
element goes before the first element of strictly greater-or-equal... it goes
after every element with strictly smaller priority and before the rest, which
together with `sortByPriority` folding from the left reproduces the stable
semantics of JS `array.sort((a, b) => a.priority - b.priority)`. -/
def insertSorted (x : Issue) : List Issue → List Issue
  | [] => [x]
  | y :: ys => if y.priority < x.priority then y :: insertSorted x ys else x :: y :: ys

/-- Stable sort by ascending `priority`, modelling the JS
`sort((a, b) => a.priority - b.priority)` calls (JS `Array.prototype.sort`
is stable): elements with equal priority keep their original relative order. -/
def sortByPriority : List Issue → List Issue
  | [] => []
  | x :: xs => insertSorted x (sortByPriority xs)

/-- Insert position of the category quick-add form. -/
inductive AddPosition
  | top
  | bottom
deriving DecidableEq

/-- Fold for `Math.min(...)` over a priority list (guarded nonempty in the
source; the `[]` case mirrors the source's `: 0` default for "top"). -/
def minPriority (ps : List Rat) : Rat :=
  match ps with
  | [] => 0
  | p :: rest => rest.foldl min p

/-- Fold for `Math.max(...)` over a priority list (guarded nonempty in the
source; the `[]` case mirrors the source's `: -1` default for "bottom"). -/
def maxPriority (ps : List Rat) : Rat :=
  match ps with
  | [] => -1
  | p :: rest => rest.foldl max p

/-- The provisional priority `handleAddIssueToCategory`
(`src/types/issue.ts` lines 238-271) assigns to the freshly added issue:
`min(category priorities) - 0.5` for "top" (the min defaulting to `0` on an
empty category) and `max(category priorities) + 1` for "bottom" (the max
defaulting to `-1`). -/
def provisionalPriority (issues : List Issue) (category : IssueCategory)
    (position : AddPosition) : Rat :=
  let categoryIssues := issues.filter (fun i => i.category == category)
  match position with
  | AddPosition.top => minPriority (categoryIssues.map Issue.priority) - 1/2
  | AddPosition.bottom => maxPriority (categoryIssues.map Issue.priority) + 1

/-- `handleAddIssueToCategory` (`src/types/issue.ts` lines 238-271): the new
issue gets the provisional priority, is appended to the list, and the whole
list is re-sorted by priority; the source then calls `reorderIssues` on the
sorted list and stores it as the new in-memory state. -/
def handleAddIssueToCategory (issues : List Issue) (newIssue : Issue)
    (category : IssueCategory) (position : AddPosition) : List Issue :=
  let staged := { newIssue with priority := provisionalPriority issues category position }
  sortByPriority (issues ++ [staged])

/-- The priority `storageUtils.addIssue` (`src/lib/storage.ts` lines 172-225)
assigns to a newly created issue: the query takes the maximum priority over
ALL issues of the account (not just the target category), defaulting to `-1`
when the account has none, and adds 1. -/
def addIssuePriority (accountIssues : List Issue) : Rat :=
  let maxPrio := maxPriority (accountIssues.map Issue.priority)
  maxPrio + 1

/-- `storageUtils.addIssue`: the issue record created and returned, given the
account's current issues and the server-side fresh id / issue number. -/
def addIssue (accountIssues : List Issue) (newId issueNumber title description : String)
    (category : IssueCategory) : Issue :=
  { id := newId
    issueNumber := issueNumber
    title := title
    description := description
    category := category
    priority := addIssuePriority accountIssues
    tags := []
    commentCount := 0 }

/-- A partial issue record as parsed from an import JSON file: every field
may be absent. -/
structure PartialIssue where
  id : Option String := none
  issueNumber : Option String := none
  title : Option String := none
  description : Option String := none
  category : Option IssueCategory := none
  priority : Option Rat := none
  tags : Option (List String) := none
  commentCount : Option Nat := none
  dueDate : Option String := none
deriving DecidableEq

/-- The defaulting `storageUtils.importIssues` (`src/lib/storage.ts` lines
302-340) applies to one partial record: `title → "Untitled Issue"`,
`category → planned`, `priority → 0`, `tags → []`, `commentCount → 0`;
`freshId`/`freshNumber` stand for the server-generated id and the
`generateIssueNumber` result used when those fields are absent. -/
def importDefaults (imported : PartialIssue) (freshId freshNumber : String) : Issue :=
  { id := imported.id.getD freshId
    issueNumber := imported.issueNumber.getD freshNumber
    title := imported.title.getD "Untitled Issue"
    description := imported.description.getD ""
    category := imported.category.getD IssueCategory.planned
    priority := imported.priority.getD 0
    tags := imported.tags.getD []
    commentCount := imported.commentCount.getD 0
    dueDate := imported.dueDate }

/-- `storageUtils.getIssues`: the account's store rows ordered by ascending
priority (ties keep store order).  `store` is the persisted issue list. -/
def getIssues (store : List Issue) : List Issue :=
  sortByPriority store

/-- `storageUtils.importIssues` followed by `handleImportIssues`'s
`setIssues(allIssues.sort(...))` (`src/types/issue.ts` lines 299-326): the
defaulted records are inserted into the store and the full account list is
re-read sorted by priority.  No `reorderIssues` call happens on this path,
so the persisted priorities are exactly the imported/defaulted ones. -/
def importIssues (store : List Issue) (importedIssues : List (PartialIssue × String × String)) :
    List Issue :=
  let issuesData := importedIssues.map fun p => importDefaults p.1 p.2.1 p.2.2
  getIssues (store ++ issuesData)

/-- A minimal concrete issue, used by the concrete test scenarios below. -/
def mkIssue (i : String) (c : IssueCategory) (p : Rat) : Issue :=
  { id := i, issueNumber := i, title := i, description := ""
    category := c, priority := p, tags := [], commentCount := 0 }

/-! ### List helper lemmas -/

theorem spliceInsert_perm {α : Type} (l : List α) (i : Nat) (x : α) :
    (spliceInsert l i x).Perm (x :: l) := by
  induction l generalizing i with
  | nil => cases i <;> simp [spliceInsert]
  | cons y ys ih =>
    cases i with
    | zero => simp [spliceInsert]
    | succ n =>
      simp only [spliceInsert]
      exact ((ih n).cons y).trans (List.Perm.swap x y ys)

theorem filter_spliceInsert {α : Type} (p : α → Bool) (l : List α) (i : Nat) (x : α)
    (hx : p x = false) : (spliceInsert l i x).filter p = l.filter p := by
  induction l generalizing i with
  | nil => cases i <;> simp [spliceInsert, hx]
  | cons y ys ih =>
    cases i with
    | zero => simp [spliceInsert, hx]
    | succ n => simp [spliceInsert, List.filter_cons, ih n]

theorem map_spliceInsert {α β : Type} (f : α → β) (l : List α) (i : Nat) (x : α) :
    (spliceInsert l i x).map f = spliceInsert (l.map f) i (f x) := by
  induction l generalizing i with
  | nil => cases i <;> simp [spliceInsert]
  | cons y ys ih =>
    cases i with
    | zero => simp [spliceInsert]
    | succ n => simp [spliceInsert, ih n]

theorem perm_get_cons_eraseIdx {α : Type} :
    ∀ (l : List α) (i : Nat) (h : i < l.length), l.Perm (l.get ⟨i, h⟩ :: l.eraseIdx i)
  | _ :: _, 0, _ => by simp [List.eraseIdx]
  | y :: ys, n + 1, h => by
    simp only [List.eraseIdx, List.get]
    exact ((perm_get_cons_eraseIdx ys n (by simpa using h)).cons y).trans
      (List.Perm.swap _ y _)

theorem filter_eraseIdx_of_neg {α : Type} (p : α → Bool) :
    ∀ (l : List α) (i : Nat) (h : i < l.length), p (l.get ⟨i, h⟩) = false →
    (l.eraseIdx i).filter p = l.filter p
  | y :: ys, 0, _, hx => by
    simp only [List.get] at hx
    simp [List.eraseIdx, List.filter_cons, hx]
  | y :: ys, n + 1, h, hx => by
    simp only [List.get] at hx
    simp only [List.eraseIdx, List.filter_cons]
    rw [filter_eraseIdx_of_neg p ys n (by simpa using h) hx]

theorem find?_eq_get_findIdx {α : Type} (p : α → Bool) (l : List α) (x : α)
    (hfind : l.find? p = some x) :
    ∃ h : l.findIdx p < l.length, l.get ⟨l.findIdx p, h⟩ = x ∧ p x = true := by
  induction l with
  | nil => simp [List.find?] at hfind
  | cons y ys ih =>
    by_cases hy : p y = true
    · rw [List.find?_cons_of_pos _ hy] at hfind
      obtain rfl := Option.some.inj hfind
      exact ⟨by simp [List.findIdx_cons, hy], by simp [List.findIdx_cons, hy], hy⟩
    · rw [List.find?_cons_of_neg _ hy] at hfind
      obtain ⟨h, hget, hp⟩ := ih hfind
      have hy' : p y = false := by simpa using hy
      refine ⟨?_, ?_, hp⟩
      · simpa [List.findIdx_cons, hy'] using Nat.succ_lt_succ h
      · simpa [List.findIdx_cons, hy', List.get] using hget

theorem find?_id_eq_none (a : String) (l : List Issue) (h : a ∉ l.map Issue.id) :
    l.find? (fun i => i.id == a) = none := by
  rw [List.find?_eq_none]
  intro x hx hpx
  exact h (List.mem_map.mpr ⟨x, hx, by simpa using hpx⟩)

/-! ### Branch characterizations of `handleDragEnd` -/

theorem handleDragEnd_empty_branch (items : List Issue) (a : String) (c : IssueCategory) :
    handleDragEnd items { activeId := a, over := some (DropTarget.emptyZone c) }
      = items.map fun issue =>
          if issue.id = a then { issue with category := c } else issue := rfl

theorem handleDragEnd_same_branch (items : List Issue) (a t : String)
    (dragged overIssue : Issue) (hat : ¬ a = t)
    (hd : items.find? (fun i => i.id == a) = some dragged)
    (ho : items.find? (fun i => i.id == t) = some overIssue)
    (hcat : dragged.category = overIssue.category) :
    handleDragEnd items { activeId := a, over := some (DropTarget.item t) }
      = arrayMove items (items.findIdx (fun i => i.id == a))
          (items.findIdx (fun i => i.id == t)) := by
  simp [handleDragEnd, hat, hd, ho, hcat]

theorem handleDragEnd_cross_branch (items : List Issue) (a t : String)
    (dragged overIssue : Issue) (hat : ¬ a = t)
    (hd : items.find? (fun i => i.id == a) = some dragged)
    (ho : items.find? (fun i => i.id == t) = some overIssue)
    (hcat : ¬ dragged.category = overIssue.category) :
    handleDragEnd items { activeId := a, over := some (DropTarget.item t) }
      = spliceInsert (items.filter (fun i => !(i.id == a)))
          (if items.findIdx (fun i => i.id == a) < items.findIdx (fun i => i.id == t)
           then items.findIdx (fun i => i.id == t) - 1
           else items.findIdx (fun i => i.id == t))
          { dragged with category := overIssue.category } := by
  simp [handleDragEnd, hat, hd, ho, hcat]

theorem arrayMove_eq_of_lt {α : Type} (l : List α) (i j : Nat) (h : i < l.length) :
    arrayMove l i j = spliceInsert (l.eraseIdx i) j (l.get ⟨i, h⟩) := by
  unfold arrayMove
  rw [List.get?_eq_get h]

theorem arrayMove_perm {α : Type} (l : List α) (i j : Nat) (h : i < l.length) :
    (arrayMove l i j).Perm l := by
  rw [arrayMove_eq_of_lt l i j h]
  exact (spliceInsert_perm _ j _).trans (perm_get_cons_eraseIdx l i h).symm

theorem filter_arrayMove_of_neg {α : Type} (p : α → Bool) (l : List α) (i j : Nat)
    (h : i < l.length) (hx : p (l.get ⟨i, h⟩) = false) :
    (arrayMove l i j).filter p = l.filter p := by
  rw [arrayMove_eq_of_lt l i j h, filter_spliceInsert p _ j _ hx,
    filter_eraseIdx_of_neg p l i h hx]

theorem filter_ne_map_setCategory (items : List Issue) (a : String) (c : IssueCategory) :
    (items.map fun issue =>
        if issue.id = a then { issue with category := c } else issue).filter
        (fun i => !(i.id == a))
      = items.filter (fun i => !(i.id == a)) := by
  induction items with
  | nil => rfl
  | cons x xs ih =>
    by_cases hx : x.id = a
    · simp [List.filter_cons, hx, ih]
    · simp [List.filter_cons, hx, ih]

theorem map_id_map_setCategory (items : List Issue) (a : String) (c : IssueCategory) :
    ((items.map fun issue =>
        if issue.id = a then { issue with category := c } else issue).map Issue.id)
      = items.map Issue.id := by
  induction items with
  | nil => rfl
  | cons x xs ih => by_cases hx : x.id = a <;> simp [hx, ih]

theorem map_id_filter_ne (l : List Issue) (a : String) :
    (l.map Issue.id).filter (fun s => !(s == a))
      = (l.filter (fun i => !(i.id == a))).map Issue.id := by
  rw [List.filter_map]
  rfl

theorem cons_filter_ne_perm (l : List String) (a : String) (ha : a ∈ l) (h : l.Nodup) :
    (a :: l.filter (fun s => !(s == a))).Perm l := by
  have h1 : l.Perm (a :: l.erase a) := List.perm_cons_erase ha
  have h2 : l.erase a = l.filter (fun s => !(s == a)) := List.Nodup.erase_eq_filter h a
  rw [h2] at h1
  exact h1.symm

theorem sublist_filter_iff {α : Type} (p : α → Bool) (l sub : List α)
    (hsub : ∀ x ∈ sub, p x = true) : sub.Sublist (l.filter p) ↔ sub.Sublist l := by
  constructor
  · intro h; exact h.trans (List.filter_sublist l)
  · intro h
    have h2 := h.filter p
    rwa [List.filter_eq_self.mpr hsub] at h2

/-- Reconciliation leaves the list of issues other than the dragged one
untouched, in order: the core of order preservation, covering every branch
of `handleDragEnd`. -/
theorem handleDragEnd_filter_ne (items : List Issue) (ev : DragEndEvent) :
    (handleDragEnd items ev).filter (fun i => !(i.id == ev.activeId))
      = items.filter (fun i => !(i.id == ev.activeId)) := by
  obtain ⟨a, over⟩ := ev
  match over with
  | none => rfl
  | some (DropTarget.emptyZone c) => exact filter_ne_map_setCategory items a c
  | some (DropTarget.item t) =>
    by_cases hat : a = t
    · simp [handleDragEnd, hat]
    · cases hfd : items.find? (fun i => i.id == a) with
      | none =>
        cases hfo : items.find? (fun i => i.id == t) <;>
          simp [handleDragEnd, hat, hfd, hfo]
      | some dragged =>
        cases hfo : items.find? (fun i => i.id == t) with
        | none => simp [handleDragEnd, hat, hfd, hfo]
        | some overIssue =>
          obtain ⟨hlt, hget, hp⟩ := find?_eq_get_findIdx _ items dragged hfd
          by_cases hcat : dragged.category = overIssue.category
          · rw [handleDragEnd_same_branch items a t dragged overIssue hat hfd hfo hcat]
            exact filter_arrayMove_of_neg _ items _ _ hlt (by rw [hget]; simp [hp])
          · rw [handleDragEnd_cross_branch items a t dragged overIssue hat hfd hfo hcat]
            rw [filter_spliceInsert _ _ _ _ (by simpa using hp)]
            simp [List.filter_filter]

/-- Reconciliation permutes the account's issue ids (no item is lost or
duplicated), provided ids are unique, covering every branch of
`handleDragEnd`. -/
theorem handleDragEnd_map_id_perm (items : List Issue) (ev : DragEndEvent)
    (h : (items.map Issue.id).Nodup) :
    ((handleDragEnd items ev).map Issue.id).Perm (items.map Issue.id) := by
  obtain ⟨a, over⟩ := ev
  match over with
  | none => exact List.Perm.refl _
  | some (DropTarget.emptyZone c) =>
    rw [handleDragEnd_empty_branch, map_id_map_setCategory]
  | some (DropTarget.item t) =>
    by_cases hat : a = t
    · simp [handleDragEnd, hat]
    · cases hfd : items.find? (fun i => i.id == a) with
      | none =>
        cases hfo : items.find? (fun i => i.id == t) <;>
          simp [handleDragEnd, hat, hfd, hfo]
      | some dragged =>
        cases hfo : items.find? (fun i => i.id == t) with
        | none => simp [handleDragEnd, hat, hfd, hfo]
        | some overIssue =>
          obtain ⟨hlt, hget, hp⟩ := find?_eq_get_findIdx _ items dragged hfd
          have hda : dragged.id = a := by simpa using hp
          have hmem : a ∈ items.map Issue.id :=
            List.mem_map.mpr ⟨dragged, List.mem_of_find?_eq_some hfd, hda⟩
          by_cases hcat : dragged.category = overIssue.category
          · rw [handleDragEnd_same_branch items a t dragged overIssue hat hfd hfo hcat]
            exact (arrayMove_perm items _ _ hlt).map Issue.id
          · rw [handleDragEnd_cross_branch items a t dragged overIssue hat hfd hfo hcat]
            rw [map_spliceInsert]
            refine (spliceInsert_perm _ _ _).trans ?_
            have hid : ({ dragged with category := overIssue.category } : Issue).id = a := hda
            rw [hid, ← map_id_filter_ne]
            exact cons_filter_ne_perm _ a hmem h

/-- The persisted priorities written by `reorderIssues` are exactly
`0, 1, …, n-1`. -/
theorem reorderIssues_map_snd (l : List Issue) :
    (reorderIssues l).map Prod.snd = (List.range l.length).map (Nat.cast : Nat → Rat) := by
  have h1 : ∀ s : List (Nat × Issue),
      (s.map fun p => (p.2.id, (p.1 : Rat))).map Prod.snd
        = (s.map Prod.fst).map (Nat.cast : Nat → Rat) := by
    intro s
    rw [List.map_map, List.map_map]
    rfl
  rw [reorderIssues, h1, List.enum_map_fst]

/-- The priority write for the item at display position `i` is `(its id, i)`. -/
theorem reorderIssues_getElem? (l : List Issue) (i : Nat) (hi : i < l.length) :
    (reorderIssues l)[i]? = some ((l.get ⟨i, hi⟩).id, (i : Rat)) := by
  simp [reorderIssues, List.getElem?_enum, List.getElem?_eq_getElem hi]

theorem foldl_min_le_init (ps : List Rat) (p : Rat) : ps.foldl min p ≤ p := by
  induction ps generalizing p with
  | nil => exact le_refl p
  | cons q qs ih => exact le_trans (ih (min p q)) (min_le_left p q)

theorem foldl_min_le_mem (ps : List Rat) (p x : Rat) (hx : x ∈ ps) :
    ps.foldl min p ≤ x := by
  induction ps generalizing p with
  | nil => cases hx
  | cons q qs ih =>
    rcases List.mem_cons.mp hx with rfl | hx
    · exact le_trans (foldl_min_le_init qs (min p x)) (min_le_right p x)
    · exact ih (min p q) hx

theorem le_foldl_max_init (ps : List Rat) (p : Rat) : p ≤ ps.foldl max p := by
  induction ps generalizing p with
  | nil => exact le_refl p
  | cons q qs ih => exact le_trans (le_max_left p q) (ih (max p q))

theorem le_foldl_max_mem (ps : List Rat) (p x : Rat) (hx : x ∈ ps) :
    x ≤ ps.foldl max p := by
  induction ps generalizing p with
  | nil => cases hx
  | cons q qs ih =>
    rcases List.mem_cons.mp hx with rfl | hx
    · exact le_trans (le_max_right p x) (le_foldl_max_init qs (max p x))
    · exact ih (max p q) hx

theorem minPriority_le (ps : List Rat) (x : Rat) (hx : x ∈ ps) : minPriority ps ≤ x := by
  cases ps with
  | nil => cases hx
  | cons p rest =>
    rcases List.mem_cons.mp hx with rfl | hx
    · exact foldl_min_le_init rest x
    · exact foldl_min_le_mem rest p x hx

theorem le_maxPriority (ps : List Rat) (x : Rat) (hx : x ∈ ps) : x ≤ maxPriority ps := by
  cases ps with
  | nil => cases hx
  | cons p rest =>
    rcases List.mem_cons.mp hx with rfl | hx
    · exact le_foldl_max_init rest x
    · exact le_foldl_max_mem rest p x hx

theorem insertSorted_perm (x : Issue) (l : List Issue) :
    (insertSorted x l).Perm (x :: l) := by
  induction l with
  | nil => exact List.Perm.refl _
  | cons y ys ih =>
    by_cases hy : y.priority < x.priority
    · simp only [insertSorted, if_pos hy]
      exact (ih.cons y).trans (List.Perm.swap x y ys)
    · simp only [insertSorted, if_neg hy]
      exact List.Perm.refl _

theorem sortByPriority_perm (l : List Issue) : (sortByPriority l).Perm l := by
  induction l with
  | nil => exact List.Perm.refl _
  | cons x xs ih =>
    exact (insertSorted_perm x (sortByPriority xs)).trans (ih.cons x)

/-! ### Concrete fixtures for the claim instances -/

def c1ItemA : Issue := mkIssue "A" IssueCategory.planned 0

def c1ItemB : Issue := mkIssue "B" IssueCategory.planned 1

def c1Ev : DragEndEvent := { activeId := "A", over := some (DropTarget.item "B") }

def c3ItemA : Issue := mkIssue "A" IssueCategory.planned 0

def c3ItemB : Issue := mkIssue "B" IssueCategory.planned 1

def c3ItemC : Issue := mkIssue "C" IssueCategory.planned 2

def c3Ev : DragEndEvent := { activeId := "A", over := some (DropTarget.item "C") }

def c7Item : Issue := mkIssue "X1" IssueCategory.planned 0

def c9Item : Issue := mkIssue "A" IssueCategory.planned 0

/-! ### Claim theorems -/

/-- C1: after any drag-end reconciliation (same-category, cross-category or
empty-category drop), the priorities persisted for the account's items form
the contiguous zero-based sequence `0..n-1`, assigned in display order, with
no duplicates and no gaps: the reconciled list carries the same ids (as a
permutation, so no item is lost), and `reorderIssues` writes priority `i` to
the item at display position `i`. -/
theorem drag_reconcile_reindex_closure (items : List Issue) (ev : DragEndEvent)
    (h : (items.map Issue.id).Nodup) :
    ((handleDragEnd items ev).map Issue.id).Perm (items.map Issue.id) ∧
    (reorderIssues (handleDragEnd items ev)).map Prod.snd
      = (List.range (handleDragEnd items ev).length).map (Nat.cast : Nat → Rat) ∧
    ∀ i (hi : i < (handleDragEnd items ev).length),
      (reorderIssues (handleDragEnd items ev))[i]?
        = some (((handleDragEnd items ev).get ⟨i, hi⟩).id, (i : Rat)) :=
  ⟨handleDragEnd_map_id_perm items ev h, reorderIssues_map_snd _,
    fun i hi => reorderIssues_getElem? _ i hi⟩

theorem drag_reconcile_reindex_closure_witness :
    ([c1ItemA, c1ItemB].map Issue.id).Nodup ∧
    (((handleDragEnd [c1ItemA, c1ItemB] c1Ev).map Issue.id).Perm
        ([c1ItemA, c1ItemB].map Issue.id) ∧
      (reorderIssues (handleDragEnd [c1ItemA, c1ItemB] c1Ev)).map Prod.snd
        = (List.range (handleDragEnd [c1ItemA, c1ItemB] c1Ev).length).map
            (Nat.cast : Nat → Rat) ∧
      ∀ i (hi : i < (handleDragEnd [c1ItemA, c1ItemB] c1Ev).length),
        (reorderIssues (handleDragEnd [c1ItemA, c1ItemB] c1Ev))[i]?
          = some (((handleDragEnd [c1ItemA, c1ItemB] c1Ev).get ⟨i, hi⟩).id, (i : Rat))) :=
  ⟨by decide, drag_reconcile_reindex_closure [c1ItemA, c1ItemB] c1Ev (by decide)⟩

/-- C3: a single move of the dragged item does not change the relative order
of any two other items: for ids `b` and `c` different from the dragged id,
`b` precedes `c` (some occurrence of `b` before one of `c`) in the
reconciled list exactly when it did before the move.  Holds for every branch
of `handleDragEnd`. -/
theorem move_preserves_relative_order (items : List Issue) (ev : DragEndEvent) (b c : String)
    (hb : ¬ b = ev.activeId) (hc : ¬ c = ev.activeId) :
    ([b, c].Sublist ((handleDragEnd items ev).map Issue.id)
      ↔ [b, c].Sublist (items.map Issue.id)) := by
  have hkeep : ∀ x ∈ [b, c], (fun s => !(s == ev.activeId)) x = true := by
    intro x hx
    rcases List.mem_cons.mp hx with rfl | hx
    · simp [hb]
    · rcases List.mem_cons.mp hx with rfl | hx
      · simp [hc]
      · cases hx
  have e1 := sublist_filter_iff (fun s => !(s == ev.activeId))
      ((handleDragEnd items ev).map Issue.id) [b, c] hkeep
  have e2 := sublist_filter_iff (fun s => !(s == ev.activeId)) (items.map Issue.id) [b, c] hkeep
  rw [map_id_filter_ne, handleDragEnd_filter_ne, ← map_id_filter_ne] at e1
  exact e1.symm.trans e2

theorem move_preserves_relative_order_witness :
    (¬ "B" = c3Ev.activeId) ∧ (¬ "C" = c3Ev.activeId) ∧
    (["B", "C"].Sublist ((handleDragEnd [c3ItemA, c3ItemB, c3ItemC] c3Ev).map Issue.id)
      ↔ ["B", "C"].Sublist ([c3ItemA, c3ItemB, c3ItemC].map Issue.id)) :=
  ⟨by decide, by decide,
    move_preserves_relative_order [c3ItemA, c3ItemB, c3ItemC] c3Ev "B" "C"
      (by decide) (by decide)⟩

/-- C7: dropping a dragged item onto an empty-category zone rewrites only
that item's `category`: the length, the id sequence, and every item's
priority, title, tags, description, comment count, due date and issue number
are unchanged position by position, and only the dragged item's category
becomes the zone's category.  In particular,
dragging the only planned item onto the empty in-review zone leaves zero
planned items and exactly that one in-review item. -/
theorem empty_category_drop_only_category (items : List Issue) (a : String) (c : IssueCategory) :
    (handleDragEnd items { activeId := a, over := some (DropTarget.emptyZone c) }).length
        = items.length ∧
    (handleDragEnd items { activeId := a, over := some (DropTarget.emptyZone c) }).map Issue.id
        = items.map Issue.id ∧
    (handleDragEnd items
        { activeId := a, over := some (DropTarget.emptyZone c) }).map Issue.priority
        = items.map Issue.priority ∧
    (handleDragEnd items { activeId := a, over := some (DropTarget.emptyZone c) }).map Issue.title
        = items.map Issue.title ∧
    (handleDragEnd items { activeId := a, over := some (DropTarget.emptyZone c) }).map Issue.tags
        = items.map Issue.tags ∧
    (handleDragEnd items
        { activeId := a, over := some (DropTarget.emptyZone c) }).map Issue.description
        = items.map Issue.description ∧
    (handleDragEnd items
        { activeId := a, over := some (DropTarget.emptyZone c) }).map Issue.commentCount
        = items.map Issue.commentCount ∧
    (handleDragEnd items
        { activeId := a, over := some (DropTarget.emptyZone c) }).map Issue.dueDate
        = items.map Issue.dueDate ∧
    (handleDragEnd items
        { activeId := a, over := some (DropTarget.emptyZone c) }).map Issue.issueNumber
        = items.map Issue.issueNumber ∧
    (handleDragEnd items
        { activeId := a, over := some (DropTarget.emptyZone c) }).map Issue.category
        = items.map (fun x => if x.id = a then c else x.category) ∧
    (handleDragEnd [c7Item] { activeId := "X1", over := some (DropTarget.emptyZone IssueCategory.inReview) }
        = [{ c7Item with category := IssueCategory.inReview }] ∧
      (handleDragEnd [c7Item]
          { activeId := "X1", over := some (DropTarget.emptyZone IssueCategory.inReview) }).filter
          (fun i => i.category == IssueCategory.planned) = [] ∧
      (handleDragEnd [c7Item]
          { activeId := "X1", over := some (DropTarget.emptyZone IssueCategory.inReview) }).filter
          (fun i => i.category == IssueCategory.inReview)
        = [{ c7Item with category := IssueCategory.inReview }]) := by
  refine ⟨?_, ?_, ?_, ?_, ?_, ?_, ?_, ?_, ?_, ?_, ⟨by decide, by decide, by decide⟩⟩
  · rw [handleDragEnd_empty_branch, List.length_map]
  · rw [handleDragEnd_empty_branch, map_id_map_setCategory]
  all_goals
    rw [handleDragEnd_empty_branch, List.map_map]
    refine List.map_congr_left ?_
    intro x _
    by_cases hx : x.id = a <;> simp [hx]

/-- C9: a drag-end onto the dragged item itself, or whose dragged or target
id matches no item, leaves the in-memory issue list exactly as it was (the
intent is dropped without mutating any item); the unknown-dragged case also
covers empty-zone drops. -/
theorem dragEnd_guard_noop (items : List Issue) (a : String) (tgt : DropTarget)
    (h : (∃ t, tgt = DropTarget.item t ∧
            (t = a ∨ a ∉ items.map Issue.id ∨ t ∉ items.map Issue.id))
      ∨ (∃ c, tgt = DropTarget.emptyZone c ∧ a ∉ items.map Issue.id)) :
    handleDragEnd items { activeId := a, over := some tgt } = items := by
  rcases h with ⟨t, rfl, ht⟩ | ⟨c, rfl, hc⟩
  · rcases ht with rfl | ha | ht2
    · simp [handleDragEnd]
    · by_cases hat : a = t
      · simp [handleDragEnd, hat]
      · have hfd := find?_id_eq_none a items ha
        cases hfo : items.find? (fun i => i.id == t) <;>
          simp [handleDragEnd, hat, hfd, hfo]
    · by_cases hat : a = t
      · simp [handleDragEnd, hat]
      · have hfo := find?_id_eq_none t items ht2
        cases hfd : items.find? (fun i => i.id == a) <;>
          simp [handleDragEnd, hat, hfd, hfo]
  · rw [handleDragEnd_empty_branch]
    have hpt : ∀ x ∈ items, (if x.id = a then { x with category := c } else x) = x := by
      intro x hx
      rw [if_neg]
      intro hxa
      exact hc (List.mem_map.mpr ⟨x, hx, hxa⟩)
    rw [List.map_congr_left hpt]
    exact List.map_id items

theorem dragEnd_guard_noop_witness :
    ((∃ t, DropTarget.item "A" = DropTarget.item t ∧
        (t = "Z" ∨ "Z" ∉ [c9Item].map Issue.id ∨ t ∉ [c9Item].map Issue.id))
      ∨ (∃ c, DropTarget.item "A" = DropTarget.emptyZone c ∧
          "Z" ∉ [c9Item].map Issue.id)) ∧
    handleDragEnd [c9Item] { activeId := "Z", over := some (DropTarget.item "A") } = [c9Item] :=
  ⟨Or.inl ⟨"A", rfl, Or.inr (Or.inl (by decide))⟩,
    dragEnd_guard_noop [c9Item] "Z" (DropTarget.item "A")
      (Or.inl ⟨"A", rfl, Or.inr (Or.inl (by decide))⟩)⟩

/-- C4: a same-category drag removes the dragged item from its index in the
full list and reinserts it at the target item's index — a remove-then-insert
list move, not a swap — and changes no item's fields (the result is a
permutation of the very same issue records, so categories are unchanged).
In particular `[A(p0), B(p1), C(p2)]` all planned, moving A onto C, yields
order `[B, C, A]` with persisted priorities `[0, 1, 2]`. -/
theorem same_category_move (items : List Issue) (a t : String) (dragged overIssue : Issue)
    (hat : ¬ a = t)
    (hd : items.find? (fun i => i.id == a) = some dragged)
    (ho : items.find? (fun i => i.id == t) = some overIssue)
    (hcat : dragged.category = overIssue.category) :
    handleDragEnd items { activeId := a, over := some (DropTarget.item t) }
        = spliceInsert (items.eraseIdx (items.findIdx (fun i => i.id == a)))
            (items.findIdx (fun i => i.id == t)) dragged ∧
    (handleDragEnd items { activeId := a, over := some (DropTarget.item t) }).Perm items ∧
    ((handleDragEnd [c3ItemA, c3ItemB, c3ItemC] c3Ev).map Issue.id = ["B", "C", "A"] ∧
      reorderIssues (handleDragEnd [c3ItemA, c3ItemB, c3ItemC] c3Ev)
        = [("B", 0), ("C", 1), ("A", 2)]) := by
  obtain ⟨hlt, hget, hp⟩ := find?_eq_get_findIdx _ items dragged hd
  refine ⟨?_, ?_, by decide, by decide⟩
  · rw [handleDragEnd_same_branch items a t dragged overIssue hat hd ho hcat,
      arrayMove_eq_of_lt items _ _ hlt, hget]
  · rw [handleDragEnd_same_branch items a t dragged overIssue hat hd ho hcat]
    exact arrayMove_perm items _ _ hlt

theorem same_category_move_witness :
    (¬ "A" = "C") ∧
    ([c3ItemA, c3ItemB, c3ItemC].find? (fun i => i.id == "A") = some c3ItemA) ∧
    ([c3ItemA, c3ItemB, c3ItemC].find? (fun i => i.id == "C") = some c3ItemC) ∧
    (c3ItemA.category = c3ItemC.category) ∧
    (handleDragEnd [c3ItemA, c3ItemB, c3ItemC] { activeId := "A", over := some (DropTarget.item "C") }
        = spliceInsert ([c3ItemA, c3ItemB, c3ItemC].eraseIdx
            ([c3ItemA, c3ItemB, c3ItemC].findIdx (fun i => i.id == "A")))
            ([c3ItemA, c3ItemB, c3ItemC].findIdx (fun i => i.id == "C")) c3ItemA ∧
      (handleDragEnd [c3ItemA, c3ItemB, c3ItemC]
          { activeId := "A", over := some (DropTarget.item "C") }).Perm [c3ItemA, c3ItemB, c3ItemC] ∧
      ((handleDragEnd [c3ItemA, c3ItemB, c3ItemC] c3Ev).map Issue.id = ["B", "C", "A"] ∧
        reorderIssues (handleDragEnd [c3ItemA, c3ItemB, c3ItemC] c3Ev)
          = [("B", 0), ("C", 1), ("A", 2)])) :=
  ⟨by decide, by decide, by decide, by decide,
    same_category_move [c3ItemA, c3ItemB, c3ItemC] "A" "C" c3ItemA c3ItemC
      (by decide) (by decide) (by decide) (by decide)⟩

/-- C10: the reorder/persist step leaves the in-memory issues untouched:
after a same-category drag the new list is a permutation of the very same
issue records (so every item keeps its pre-drag `priority` value, and the
multiset of in-memory priorities is unchanged), while `reorderIssues` writes
the index-based priorities `0..n-1` only to the external store. -/
theorem reorder_persist_preserves_memory (items : List Issue) (a t : String)
    (dragged overIssue : Issue) (hat : ¬ a = t)
    (hd : items.find? (fun i => i.id == a) = some dragged)
    (ho : items.find? (fun i => i.id == t) = some overIssue)
    (hcat : dragged.category = overIssue.category) :
    (handleDragEnd items { activeId := a, over := some (DropTarget.item t) }).Perm items ∧
    ((handleDragEnd items { activeId := a, over := some (DropTarget.item t) }).map
        Issue.priority).Perm (items.map Issue.priority) ∧
    (reorderIssues (handleDragEnd items { activeId := a, over := some (DropTarget.item t) })).map
        Prod.snd = (List.range items.length).map (Nat.cast : Nat → Rat) := by
  obtain ⟨hlt, hget, hp⟩ := find?_eq_get_findIdx _ items dragged hd
  have hperm : (handleDragEnd items { activeId := a, over := some (DropTarget.item t) }).Perm items := by
    rw [handleDragEnd_same_branch items a t dragged overIssue hat hd ho hcat]
    exact arrayMove_perm items _ _ hlt
  refine ⟨hperm, hperm.map Issue.priority, ?_⟩
  rw [reorderIssues_map_snd, hperm.length_eq]

theorem reorder_persist_preserves_memory_witness :
    (¬ "A" = "B") ∧
    ([c1ItemA, c1ItemB].find? (fun i => i.id == "A") = some c1ItemA) ∧
    ([c1ItemA, c1ItemB].find? (fun i => i.id == "B") = some c1ItemB) ∧
    (c1ItemA.category = c1ItemB.category) ∧
    ((handleDragEnd [c1ItemA, c1ItemB]
        { activeId := "A", over := some (DropTarget.item "B") }).Perm [c1ItemA, c1ItemB] ∧
      ((handleDragEnd [c1ItemA, c1ItemB]
          { activeId := "A", over := some (DropTarget.item "B") }).map
          Issue.priority).Perm ([c1ItemA, c1ItemB].map Issue.priority) ∧
      (reorderIssues (handleDragEnd [c1ItemA, c1ItemB]
          { activeId := "A", over := some (DropTarget.item "B") })).map
          Prod.snd = (List.range [c1ItemA, c1ItemB].length).map (Nat.cast : Nat → Rat)) :=
  ⟨by decide, by decide, by decide, by decide,
    reorder_persist_preserves_memory [c1ItemA, c1ItemB] "A" "B" c1ItemA c1ItemB
      (by decide) (by decide) (by decide) (by decide)⟩

/-- With unique ids, the target's index in the list-after-removal of the
dragged item equals the source's `adjustedIndex`: the target's original
index, minus 1 when the dragged item's original index was before it. -/
theorem findIdx_filter_removal (a t : String) (hat : ¬ a = t) :
    ∀ l : List Issue, (l.map Issue.id).Nodup →
    l.findIdx (fun i => i.id == a) < l.length →
    l.findIdx (fun i => i.id == t) < l.length →
    (l.filter (fun i => !(i.id == a))).findIdx (fun i => i.id == t)
      = if l.findIdx (fun i => i.id == a) < l.findIdx (fun i => i.id == t)
        then l.findIdx (fun i => i.id == t) - 1
        else l.findIdx (fun i => i.id == t) := by
  intro l
  induction l with
  | nil =>
    intro _ halt _
    simp at halt
  | cons x xs ih =>
    intro hnd halt htlt
    rw [List.map_cons, List.nodup_cons] at hnd
    by_cases hxa : (x.id == a) = true
    · have hxaeq : x.id = a := by simpa using hxa
      have hxt : (x.id == t) = false := by
        cases h2 : (x.id == t)
        · rfl
        · exact absurd (hxaeq.symm.trans (by simpa using h2)) hat
      have hnotin : a ∉ xs.map Issue.id := by
        have h3 := hnd.1
        rwa [hxaeq] at h3
      have hfil : xs.filter (fun i => !(i.id == a)) = xs := by
        rw [List.filter_eq_self]
        intro i hi
        have h4 : ¬ i.id = a := fun he => hnotin (List.mem_map.mpr ⟨i, hi, he⟩)
        simpa using h4
      simp [List.filter_cons, List.findIdx_cons, hxa, hxt, hfil]
    · have hxa' : (x.id == a) = false := by simpa using hxa
      by_cases hxt : (x.id == t) = true
      · simp [List.filter_cons, List.findIdx_cons, hxa', hxt]
      · have hxt' : (x.id == t) = false := by simpa using hxt
        have hnd' : (xs.map Issue.id).Nodup := hnd.2
        have hA : xs.findIdx (fun i => i.id == a) < xs.length := by
          have h5 := halt
          simpa [List.findIdx_cons, hxa'] using h5
        have hT : xs.findIdx (fun i => i.id == t) < xs.length := by
          have h6 := htlt
          simpa [List.findIdx_cons, hxt'] using h6
        have hih := ih hnd' hA hT
        simp only [List.filter_cons, List.findIdx_cons, hxa', hxt', cond_false,
          Bool.not_false, if_true, hih]
        by_cases hAT : xs.findIdx (fun i => i.id == a) < xs.findIdx (fun i => i.id == t)
        · have hT1 : 0 < xs.findIdx (fun i => i.id == t) := Nat.lt_of_le_of_lt (Nat.zero_le _) hAT
          simp [hAT, Nat.succ_lt_succ hAT]
          omega
        · have : ¬ (xs.findIdx (fun i => i.id == a) + 1 < xs.findIdx (fun i => i.id == t) + 1) :=
            fun hlt2 => hAT (Nat.lt_of_succ_lt_succ hlt2)
          simp [hAT, this]

def c2ItemA : Issue := mkIssue "A" IssueCategory.planned 0

def c2ItemB : Issue := mkIssue "B" IssueCategory.done 1

def c2Ev : DragEndEvent := { activeId := "A", over := some (DropTarget.item "B") }

/-- C2 counterexample: in the list `[A(planned), B(done)]`, dragging A onto B
yields the final order `[A, B]` (A first, re-categorized to done), so the
claim's concrete example — final order `[B, A]` — is false on the code. -/
theorem cross_category_example_refuted :
    (handleDragEnd [c2ItemA, c2ItemB] c2Ev).map Issue.id = ["A", "B"] ∧
    (handleDragEnd [c2ItemA, c2ItemB] c2Ev).map Issue.category
      = [IssueCategory.done, IssueCategory.done] ∧
    ¬ ((handleDragEnd [c2ItemA, c2ItemB] c2Ev).map Issue.id = ["B", "A"]) :=
  ⟨by decide, by decide, by decide⟩

/-- C2 (amended): a cross-category drag removes the dragged item from the
full list, re-categorizes it to the target's category, and reinserts it at
the target item's index in the list-after-removal — which equals the
target's original index minus 1 when the dragged item's original index was
before it, and the target's original index otherwise.  For `[A(catX),
B(catY)]`, dragging A onto B yields A with category Y and final order
`[A, B]` (the dragged item lands immediately before the target) with
persisted priorities `[0, 1]`. -/
theorem cross_category_insertion (items : List Issue) (a t : String)
    (dragged overIssue : Issue) (hnd : (items.map Issue.id).Nodup) (hat : ¬ a = t)
    (hd : items.find? (fun i => i.id == a) = some dragged)
    (ho : items.find? (fun i => i.id == t) = some overIssue)
    (hcat : ¬ dragged.category = overIssue.category) :
    handleDragEnd items { activeId := a, over := some (DropTarget.item t) }
      = spliceInsert (items.filter (fun i => !(i.id == a)))
          ((items.filter (fun i => !(i.id == a))).findIdx (fun i => i.id == t))
          { dragged with category := overIssue.category } ∧
    (items.filter (fun i => !(i.id == a))).findIdx (fun i => i.id == t)
      = (if items.findIdx (fun i => i.id == a) < items.findIdx (fun i => i.id == t)
         then items.findIdx (fun i => i.id == t) - 1
         else items.findIdx (fun i => i.id == t)) ∧
    ((handleDragEnd [c2ItemA, c2ItemB] c2Ev).map Issue.id = ["A", "B"] ∧
      (handleDragEnd [c2ItemA, c2ItemB] c2Ev).map Issue.category
        = [IssueCategory.done, IssueCategory.done] ∧
      reorderIssues (handleDragEnd [c2ItemA, c2ItemB] c2Ev) = [("A", 0), ("B", 1)]) := by
  obtain ⟨halt, hgeta, hpa⟩ := find?_eq_get_findIdx _ items dragged hd
  obtain ⟨htlt, hgett, hpt⟩ := find?_eq_get_findIdx _ items overIssue ho
  have hidx := findIdx_filter_removal a t hat items hnd halt htlt
  refine ⟨?_, hidx, by decide, by decide, by decide⟩
  rw [handleDragEnd_cross_branch items a t dragged overIssue hat hd ho hcat, hidx]

theorem cross_category_insertion_witness :
    ([c2ItemA, c2ItemB].map Issue.id).Nodup ∧
    (¬ "A" = "B") ∧
    ([c2ItemA, c2ItemB].find? (fun i => i.id == "A") = some c2ItemA) ∧
    ([c2ItemA, c2ItemB].find? (fun i => i.id == "B") = some c2ItemB) ∧
    (¬ c2ItemA.category = c2ItemB.category) ∧
    (handleDragEnd [c2ItemA, c2ItemB] { activeId := "A", over := some (DropTarget.item "B") }
        = spliceInsert ([c2ItemA, c2ItemB].filter (fun i => !(i.id == "A")))
            (([c2ItemA, c2ItemB].filter (fun i => !(i.id == "A"))).findIdx
              (fun i => i.id == "B"))
            { c2ItemA with category := c2ItemB.category } ∧
      ([c2ItemA, c2ItemB].filter (fun i => !(i.id == "A"))).findIdx (fun i => i.id == "B")
        = (if [c2ItemA, c2ItemB].findIdx (fun i => i.id == "A")
              < [c2ItemA, c2ItemB].findIdx (fun i => i.id == "B")
           then [c2ItemA, c2ItemB].findIdx (fun i => i.id == "B") - 1
           else [c2ItemA, c2ItemB].findIdx (fun i => i.id == "B")) ∧
      ((handleDragEnd [c2ItemA, c2ItemB] c2Ev).map Issue.id = ["A", "B"] ∧
        (handleDragEnd [c2ItemA, c2ItemB] c2Ev).map Issue.category
          = [IssueCategory.done, IssueCategory.done] ∧
        reorderIssues (handleDragEnd [c2ItemA, c2ItemB] c2Ev) = [("A", 0), ("B", 1)])) :=
  ⟨by decide, by decide, by decide, by decide, by decide,
    cross_category_insertion [c2ItemA, c2ItemB] "A" "B" c2ItemA c2ItemB
      (by decide) (by decide) (by decide) (by decide) (by decide)⟩

def c5Old0 : Issue := mkIssue "old0" IssueCategory.planned 0

def c5Old1 : Issue := mkIssue "old1" IssueCategory.planned 1

def c5New : Issue := mkIssue "New" IssueCategory.planned 0

/-- C5 counterexample: adding at "top" of an empty category assigns the
provisional priority `0 - 0.5 = -0.5`, not `0` as the claim's empty-category
default for "top" states. -/
theorem add_top_empty_category_refuted :
    provisionalPriority [] IssueCategory.planned AddPosition.top = -(1/2) ∧
    ¬ (provisionalPriority [] IssueCategory.planned AddPosition.top = 0) := by
  constructor
  · norm_num [provisionalPriority, minPriority]
  · norm_num [provisionalPriority, minPriority]

/-- C5 (amended): the quick-add form stages a provisional fractional
priority — strictly below every priority in the target category for "top"
(category min − ½, which is −½, not 0, when the category is empty) and
strictly above every one for "bottom" (category max + 1, 0 when empty) —
and the list is immediately re-sorted and reindexed.  With Planned holding
the only items at priorities [0, 1], adding "New" at top yields order
[New, old0, old1] with persisted priorities [0, 1, 2]; at bottom,
[old0, old1, New]. -/
theorem add_to_category_reconciliation (issues : List Issue) (cat : IssueCategory) (x : Issue) :
    provisionalPriority issues cat AddPosition.top
      = minPriority ((issues.filter (fun i => i.category == cat)).map Issue.priority) - 1/2 ∧
    provisionalPriority issues cat AddPosition.bottom
      = maxPriority ((issues.filter (fun i => i.category == cat)).map Issue.priority) + 1 ∧
    (x ∈ issues.filter (fun i => i.category == cat) →
      provisionalPriority issues cat AddPosition.top < x.priority ∧
      x.priority < provisionalPriority issues cat AddPosition.bottom) ∧
    (issues.filter (fun i => i.category == cat) = [] →
      provisionalPriority issues cat AddPosition.top = -(1/2) ∧
      provisionalPriority issues cat AddPosition.bottom = 0) ∧
    ((handleAddIssueToCategory [c5Old0, c5Old1] c5New IssueCategory.planned
        AddPosition.top).map Issue.id = ["New", "old0", "old1"] ∧
      reorderIssues (handleAddIssueToCategory [c5Old0, c5Old1] c5New IssueCategory.planned
          AddPosition.top) = [("New", 0), ("old0", 1), ("old1", 2)] ∧
      (handleAddIssueToCategory [c5Old0, c5Old1] c5New IssueCategory.planned
          AddPosition.bottom).map Issue.id = ["old0", "old1", "New"] ∧
      reorderIssues (handleAddIssueToCategory [c5Old0, c5Old1] c5New IssueCategory.planned
          AddPosition.bottom) = [("old0", 0), ("old1", 1), ("New", 2)]) := by
  refine ⟨rfl, rfl, ?_, ?_, ?_, ?_, ?_, ?_⟩
  · intro hx
    have hmem : x.priority ∈ (issues.filter (fun i => i.category == cat)).map Issue.priority :=
      List.mem_map_of_mem Issue.priority hx
    constructor
    · have hmin := minPriority_le _ _ hmem
      show minPriority ((issues.filter (fun i => i.category == cat)).map Issue.priority) - 1/2
        < x.priority
      have hhalf : (0 : Rat) < 1/2 := by norm_num
      linarith
    · have hmax := le_maxPriority _ _ hmem
      show x.priority
        < maxPriority ((issues.filter (fun i => i.category == cat)).map Issue.priority) + 1
      linarith
  · intro hempty
    constructor
    · show minPriority ((issues.filter (fun i => i.category == cat)).map Issue.priority) - 1/2
        = -(1/2)
      rw [hempty]
      norm_num [minPriority]
    · show maxPriority ((issues.filter (fun i => i.category == cat)).map Issue.priority) + 1
        = 0
      rw [hempty]
      norm_num [maxPriority]
  · norm_num [handleAddIssueToCategory, provisionalPriority, minPriority, maxPriority,
      sortByPriority, insertSorted, c5Old0, c5Old1, c5New, mkIssue]
  · norm_num [handleAddIssueToCategory, provisionalPriority, minPriority, maxPriority,
      sortByPriority, insertSorted, reorderIssues, List.enum, List.enumFrom,
      c5Old0, c5Old1, c5New, mkIssue]
  · norm_num [handleAddIssueToCategory, provisionalPriority, minPriority, maxPriority,
      sortByPriority, insertSorted, c5Old0, c5Old1, c5New, mkIssue]
  · norm_num [handleAddIssueToCategory, provisionalPriority, minPriority, maxPriority,
      sortByPriority, insertSorted, reorderIssues, List.enum, List.enumFrom,
      c5Old0, c5Old1, c5New, mkIssue]

theorem add_to_category_reconciliation_witness :
    c5Old0 ∈ [c5Old0, c5Old1].filter (fun i => i.category == IssueCategory.planned) ∧
    (provisionalPriority [c5Old0, c5Old1] IssueCategory.planned AddPosition.top
        < c5Old0.priority ∧
      c5Old0.priority
        < provisionalPriority [c5Old0, c5Old1] IssueCategory.planned AddPosition.bottom) :=
  ⟨by decide,
    (add_to_category_reconciliation [c5Old0, c5Old1] IssueCategory.planned c5Old0).2.2.1
      (by decide)⟩

def c6Item : Issue := mkIssue "X" IssueCategory.inProgress 5

/-- C6 counterexample: with the account holding a single in-progress issue
at priority 5, appending a new issue to the (empty) planned category assigns
priority 6 — the account-wide maximum plus 1 — not 0 as the per-category
claim requires for an empty category. -/
theorem append_priority_ignores_category :
    addIssuePriority [c6Item] = 6 ∧
    (addIssue [c6Item] "N" "WPM-2" "New" "" IssueCategory.planned).priority = 6 ∧
    ¬ ((addIssue [c6Item] "N" "WPM-2" "New" "" IssueCategory.planned).priority = 0) := by
  have h : addIssuePriority [c6Item] = 6 := by
    norm_num [addIssuePriority, maxPriority, c6Item, mkIssue]
  refine ⟨h, h, ?_⟩
  rw [show (addIssue [c6Item] "N" "WPM-2" "New" "" IssueCategory.planned).priority
      = addIssuePriority [c6Item] from rfl, h]
  norm_num

/-- C6 (amended): `addIssue` assigns the new issue a priority equal to the
maximum priority among ALL existing issues of the account plus 1 — strictly
above every existing issue, whatever its category — and 0 when the account
has no issues at all; it returns the created issue carrying the requested
fields. -/
theorem append_assigns_account_max (accountIssues : List Issue)
    (newId num titleStr descStr : String) (cat : IssueCategory) :
    (∀ x ∈ accountIssues,
      x.priority < (addIssue accountIssues newId num titleStr descStr cat).priority) ∧
    (accountIssues = [] →
      (addIssue accountIssues newId num titleStr descStr cat).priority = 0) ∧
    (addIssue accountIssues newId num titleStr descStr cat).priority
      = maxPriority (accountIssues.map Issue.priority) + 1 ∧
    (addIssue accountIssues newId num titleStr descStr cat).category = cat ∧
    (addIssue accountIssues newId num titleStr descStr cat).title = titleStr ∧
    (addIssue accountIssues newId num titleStr descStr cat).id = newId := by
  refine ⟨?_, ?_, rfl, rfl, rfl, rfl⟩
  · intro x hx
    have hle : x.priority ≤ maxPriority (accountIssues.map Issue.priority) :=
      le_maxPriority _ _ (List.mem_map_of_mem Issue.priority hx)
    show x.priority < maxPriority (accountIssues.map Issue.priority) + 1
    linarith
  · intro h
    subst h
    show maxPriority (([] : List Issue).map Issue.priority) + 1 = 0
    norm_num [maxPriority]

theorem append_assigns_account_max_witness :
    c6Item ∈ [c6Item] ∧
    c6Item.priority < (addIssue [c6Item] "N" "WPM-2" "New" "" IssueCategory.planned).priority :=
  ⟨by decide,
    (append_assigns_account_max [c6Item] "N" "WPM-2" "New" "" IssueCategory.planned).1
      c6Item (by decide)⟩

def c8Existing : Issue := mkIssue "E" IssueCategory.planned 0

def c8Blank : PartialIssue := {}

/-- C8 counterexample: importing a fully-blank record into an account whose
only item has priority 0 leaves the account with priorities [0, 0]: the
imported item defaults to priority 0 — tied with the existing item at the
front of the order, not appended after it — and no reindex runs, whereas
append-then-reindex would have produced [0, 1]. -/
theorem import_not_appended_not_reindexed :
    (importIssues [c8Existing] [(c8Blank, "N", "WPM-2")]).map Issue.priority = [0, 0] ∧
    (importIssues [c8Existing] [(c8Blank, "N", "WPM-2")]).map Issue.title
      = ["E", "Untitled Issue"] ∧
    ¬ ((importIssues [c8Existing] [(c8Blank, "N", "WPM-2")]).map Issue.priority = [0, 1]) :=
  ⟨by decide, by decide, by decide⟩

/-- C8 (amended): import defaults every missing field — title to
"Untitled Issue", category to planned, tags to [], commentCount to 0, id to
the fresh server id — but a missing priority defaults to 0, placing the
imported item at the front of the order (tied with any existing priority-0
item) rather than appending it; and no reindex runs after import: the
resulting account list is a permutation of the store plus the defaulted
records, carrying exactly the priorities they had (merely re-sorted for
display). -/
theorem import_defaults_without_reindex (p : PartialIssue) (fid fnum : String)
    (store : List Issue) (imps : List (PartialIssue × String × String)) :
    (p.title = none → (importDefaults p fid fnum).title = "Untitled Issue") ∧
    (p.category = none → (importDefaults p fid fnum).category = IssueCategory.planned) ∧
    (p.tags = none → (importDefaults p fid fnum).tags = []) ∧
    (p.commentCount = none → (importDefaults p fid fnum).commentCount = 0) ∧
    (p.priority = none → (importDefaults p fid fnum).priority = 0) ∧
    (p.id = none → (importDefaults p fid fnum).id = fid) ∧
    (importIssues store imps).Perm
      (store ++ imps.map fun q => importDefaults q.1 q.2.1 q.2.2) := by
  refine ⟨?_, ?_, ?_, ?_, ?_, ?_, ?_⟩
  · intro h; simp [importDefaults, h]
  · intro h; simp [importDefaults, h]
  · intro h; simp [importDefaults, h]
  · intro h; simp [importDefaults, h]
  · intro h; simp [importDefaults, h]
  · intro h; simp [importDefaults, h]
  · exact sortByPriority_perm _

theorem import_defaults_without_reindex_witness :
    c8Blank.title = none ∧
    (importDefaults c8Blank "N" "WPM-2").title = "Untitled Issue" :=
  ⟨rfl,
    (import_defaults_without_reindex c8Blank "N" "WPM-2" [c8Existing]
      [(c8Blank, "N", "WPM-2")]).1 rfl⟩

end Wpm
